import Mathlib

/-!
# Verification of the ForerunnerDB view core

Shallow embedding of the View / BinaryTree subsystem of the repository
(`src/js/lib/View.js`, `src/doc/BTree.js.html`) together with proofs
settling the specification claims about it.

JavaScript values at indexed / queried fields are modelled by `JVal`:
numbers as integers, strings as Lean strings (the locale-sensitive
`localeCompare` is modelled as a strict total order on strings),
booleans, `null` and `undefined` literally.  Documents are association
lists from field names to values; reading an absent field yields
`undefined` exactly as in JavaScript.
-/

namespace Forerunner

/-- A JavaScript value as it appears at an indexed or queried field. -/
inductive JVal : Type
  | num (n : Int)
  | str (s : String)
  | bool (b : Bool)
  | null
  | undef
  deriving DecidableEq, Repr

/-- A document: an association list of field name / value pairs.
Reading a field not in the list yields `JVal.undef` (see `jGet`). -/
def Doc : Type := List (String × JVal)

instance : DecidableEq Doc := by
  unfold Doc; infer_instance

instance : Repr Doc := by
  unfold Doc; infer_instance

/-- `d[k]` in JavaScript: the first binding of `k`, or `undefined`. -/
def jGet (d : Doc) (k : String) : JVal :=
  match d.find? (fun p => p.1 == k) with
  | some p => p.2
  | none => JVal.undef

/-- Whether the field `k` is present in the object `d`. -/
def jHas (d : Doc) (k : String) : Bool :=
  (d.find? (fun p => p.1 == k)).isSome

/-- `delete d[k]` in JavaScript: remove the binding of `k`. -/
def jDel (d : Doc) (k : String) : Doc :=
  d.filter (fun p => p.1 != k)

/-- JavaScript `ToNumber` coercion for the values we model: numbers are
themselves, booleans are 0/1, `null` is 0, `undefined` is `NaN` (`none`),
and strings parse as optionally-signed decimal integers (`""` is 0,
non-numeric strings are `NaN`).  Fractional numbers are out of scope of
the model, which represents JavaScript numbers as integers. -/
def toNum : JVal → Option Int
  | JVal.num n => some n
  | JVal.bool b => some (if b then 1 else 0)
  | JVal.null => some 0
  | JVal.undef => none
  | JVal.str s =>
      if s = "" then some 0
      else if s.front = '-' ∧ (s.drop 1).length > 0 ∧ (s.drop 1).all Char.isDigit then
        some (-(s.drop 1).toNat!)
      else if s.all Char.isDigit then
        some s.toNat!
      else
        none

/-- JavaScript `a < b` for non-string-vs-string comparisons: both sides
are coerced with `ToNumber`; any comparison against `NaN` is false. -/
def jsLt (a b : JVal) : Bool :=
  match toNum a, toNum b with
  | some x, some y => x < y
  | _, _ => false

/-- JavaScript truthiness of a value. -/
def truthyJ : JVal → Bool
  | JVal.num n => n != 0
  | JVal.str s => s != ""
  | JVal.bool b => b
  | JVal.null => false
  | JVal.undef => false

/-- Model of `String.prototype.localeCompare`: a strict total order on
strings returning -1/0/1 (the locale order is modelled by Lean's
lexicographic string order). -/
def localeCompare (a b : String) : Int :=
  if a < b then -1 else if b < a then 1 else 0

/-- `BinaryTree.prototype.sortAsc` (BTree.js lines 326-339): strings use
`localeCompare`; otherwise `a > b → 1`, `a < b → -1`, else `0`. -/
def sortAsc (a b : JVal) : Int :=
  match a, b with
  | JVal.str x, JVal.str y => localeCompare x y
  | _, _ => if jsLt b a then 1 else if jsLt a b then -1 else 0

/-- `BinaryTree.prototype.sortDesc` (BTree.js lines 347-359). -/
def sortDesc (a b : JVal) : Int :=
  match a, b with
  | JVal.str x, JVal.str y => localeCompare y x
  | _, _ => if jsLt b a then -1 else if jsLt a b then 1 else 0

/-- One level of an index specification: `{key, val}` as produced by
`BinaryTree.prototype.keys`; `val` is the direction (+1 asc, -1 desc). -/
def IndexEntry : Type := String × Int

instance : DecidableEq IndexEntry := by
  unfold IndexEntry; infer_instance

/-- `BinaryTree.prototype._compareFunc` (BTree.js lines 288-301): uses
only the first index level (`_indexField = _index[0]`); with no index
level, or a direction other than ±1, the result stays `0`. -/
def compareFunc (spec : List IndexEntry) (a b : Doc) : Int :=
  match spec with
  | [] => 0
  | e :: _ =>
      if e.2 = 1 then sortAsc (jGet a e.1) (jGet b e.1)
      else if e.2 = -1 then sortDesc (jGet a e.1) (jGet b e.1)
      else 0

/-- The multi-level binary ("ternary indexed") tree of BTree.js.
`nil` stands both for an absent child and for the data-less fresh root;
a `node` holds the representative document `data`, the `store` bag of
documents equal to `data` on this level's field, and the `left`,
`middle`, `right` children.  The node's remaining index spec is passed
to the operations as a parameter (in the source it is stored in the
node but fully determined by the construction). -/
inductive BTree : Type
  | nil
  | node (data : Doc) (store : List Doc) (l m r : BTree)
  deriving DecidableEq

/-- `new BinaryTree(val, index)` (BTree.js lines 37-45): store the value
as this node's data, push it on the store, and create the middle child
on the tail spec when one remains (`insertMiddle`, lines 198-217). -/
def newNode : List IndexEntry → Doc → BTree
  | [], d => BTree.node d [d] BTree.nil BTree.nil BTree.nil
  | [_], d => BTree.node d [d] BTree.nil BTree.nil BTree.nil
  | _ :: e2 :: rest, d => BTree.node d [d] BTree.nil (newNode (e2 :: rest) d) BTree.nil

/-- `BinaryTree.prototype.insert` for a single value (BTree.js lines
155-175) together with `insertLeft` / `insertMiddle` / `insertRight`:
on a data-less node adopt the value; otherwise compare on the first
index field and recurse left / middle / right, pushing on the store in
the middle case.  An absent middle child is created on the tail spec
only when the tail is non-empty. -/
def insertT (spec : List IndexEntry) : BTree → Doc → BTree
  | BTree.nil, d => newNode spec d
  | BTree.node dd s l m r, d =>
      if compareFunc spec d dd = -1 then
        BTree.node dd s (insertT spec l d) m r
      else if compareFunc spec d dd = 0 then
        match m with
        | BTree.nil =>
            match spec with
            | _ :: e2 :: rest =>
                BTree.node dd (s ++ [d]) l (newNode (e2 :: rest) d) r
            | _ => BTree.node dd (s ++ [d]) l BTree.nil r
        | BTree.node dm sm lm mm rm =>
            BTree.node dd (s ++ [d]) l
              (insertT spec.tail (BTree.node dm sm lm mm rm) d) r
      else if compareFunc spec d dd = 1 then
        BTree.node dd s l m (insertT spec r d)
      else
        BTree.node dd s l m r

/-- The value `this.insert(val)` returns for a single value (BTree.js
lines 130-175): `true` when the node had no data yet; in every other
case the comparison branches fall through without a `return`, so the
call evaluates to `undefined`, i.e. falsy. -/
def insertRet : BTree → Bool
  | BTree.nil => true
  | BTree.node _ _ _ _ _ => false

/-- `BinaryTree.prototype.insert` on an array (BTree.js lines 136-153):
insert sequentially and partition by the truthiness of each single
insert's return value. -/
def insertBatch (spec : List IndexEntry) (t : BTree) (ds : List Doc) :
    BTree × List Doc × List Doc :=
  ds.foldl
    (fun acc d =>
      let ok := insertRet acc.1
      (insertT spec acc.1 d,
       if ok then acc.2.1 ++ [d] else acc.2.1,
       if ok then acc.2.2 else acc.2.2 ++ [d]))
    (t, [], [])

/-- Build a tree by inserting the documents into a fresh data-less root. -/
def buildTree (spec : List IndexEntry) (ds : List Doc) : BTree :=
  (insertBatch spec BTree.nil ds).1

/-- `BinaryTree.prototype.inOrder` (BTree.js lines 239-257): left, then
middle (or the leaf store when no middle), then right. -/
def inOrder : BTree → List Doc
  | BTree.nil => []
  | BTree.node _ s l m r =>
      inOrder l ++ (match m with
        | BTree.nil => s
        | BTree.node dm sm lm mm rm => inOrder (BTree.node dm sm lm mm rm)) ++
      inOrder r

/-- The multiset of documents a subtree is responsible for: the store of
each node plus the left and right subtrees.  (The middle child mirrors
the store and is therefore not counted again.) -/
def docsOf : BTree → List Doc
  | BTree.nil => []
  | BTree.node _ s l _ r => s ++ docsOf l ++ docsOf r

/-- `BinaryTree.prototype.lookup` (BTree.js lines 393-446).  A falsy
query value at this level's field takes the unconstrained branch that
gathers left, middle (or store) and right.  Otherwise the query is
compared against the node's data and the lookup recurses left / right,
or strips the field from a decoupled copy of the query and descends the
middle (or yields the store).  The source dereferences
`this._indexField.key` and would throw on a node with an empty index
spec; the model returns `[]` there ([] spec case and the
middle-with-empty-tail case, both unreachable on trees the source
builds with a non-empty index). -/
def lookupT (spec : List IndexEntry) : BTree → Doc → List Doc
  | BTree.nil, _ => []
  | BTree.node dd s l m r, q =>
      match spec with
      | [] => []
      | e :: rest =>
          if truthyJ (jGet q e.1) then
            let c := compareFunc (e :: rest) q dd
            if c = -1 then lookupT (e :: rest) l q
            else if c = 0 then
              let q' := jDel q e.1
              match m with
              | BTree.nil => s
              | BTree.node dm sm lm mm rm =>
                  match rest with
                  | e2 :: rest2 =>
                      if jGet q' e2.1 ≠ JVal.undef then
                        lookupT (e2 :: rest2) (BTree.node dm sm lm mm rm) q'
                      else
                        inOrder (BTree.node dm sm lm mm rm)
                  | [] => []
            else if c = 1 then lookupT (e :: rest) r q
            else []
          else
            lookupT (e :: rest) l q ++
            (match m with
              | BTree.nil => s
              | BTree.node dm sm lm mm rm =>
                  lookupT rest (BTree.node dm sm lm mm rm) q) ++
            lookupT (e :: rest) r q

/-! ## The compound comparator induced by an index specification

`cmpL` is the lexicographic comparator the specification calls "the
compound comparator induced by σ": compare on the first level; on a tie
fall through to the remaining levels. -/

/-- Compound (lexicographic) document comparator for an index spec. -/
def cmpL : List IndexEntry → Doc → Doc → Int
  | [], _, _ => 0
  | e :: rest, a, b =>
      let c := compareFunc [e] a b
      if c = 0 then cmpL rest a b else c

/-! ## The View's ReactorIO transform, `update` branch -/

/-- The result of `privateData.diff(...)` (the `diff` contract of
Collection, an external collaborator per the specification §6). -/
structure Diff : Type where
  insert : List Doc
  update : List Doc
  remove : List Doc
  deriving DecidableEq, Repr

/-- A chain packet as emitted by the transform's `chainSend` calls.
The remove packet's query is `{$or: [...]}`; each `$or` clause is a
single key/value pair, modelled as the pair itself. -/
inductive Packet : Type
  | insert (docs : List Doc)
  | update (query : List (String × JVal)) (upd : Doc)
  | remove (orClauses : List (String × JVal))
  deriving DecidableEq, Repr

/-- The `update` branch of the View's ReactorIO transform function
(View.js lines 256-303) as a function of the computed diff and the
private data's primary key: returns the boolean the transform returns
together with the list of packets passed to `chainSend`, in emission
order.  Mirrors the source: the gate is
`diff.insert.length || diff.remove.length`; inside the gate an `insert`
packet is sent when `diff.insert` is non-empty, one `update` packet per
`diff.update` entry with query `{pk: doc[pk]}`, and a single `remove`
packet whose `$or` clauses are `{_id: doc[pk]}` (the key is the literal
string `"_id"`, View.js line 290). -/
def updateTransform (pk : String) (diff : Diff) : Bool × List Packet :=
  if diff.insert.length ≠ 0 ∨ diff.remove.length ≠ 0 then
    (true,
      (if diff.insert.length ≠ 0 then [Packet.insert diff.insert] else []) ++
      diff.update.map (fun d => Packet.update [(pk, jGet d pk)] d) ++
      (if diff.remove.length ≠ 0 then
        [Packet.remove (diff.remove.map (fun d => ("_id", jGet d pk)))]
      else []))
  else
    (false, [])

/-! ## The View's `_chainHandler`, `insert` case -/

/-- Modelled from the spec: `Collection.prototype._insertHandle`
(Collection.js is not under src/; §9 treats it as "splice doc at index
and notify internal watchers", generalised to the sequence payload the
View passes after normalising to an array): splice the payload into the
data array at the given index. -/
def insertHandle (payload : List Doc) (i : Nat) (data : List Doc) : List Doc :=
  data.take i ++ payload ++ data.drop i

/-- Modelled from the spec: `ActiveBucket.prototype.insert`
(ActiveBucket.js is not under src/; §4.B: `insert(doc) → i` returns the
index at which `doc` should be placed so the maintained sequence stays
sorted under the index spec, ties breaking by insertion order, and
records the doc as placed). -/
def activeBucketInsert (σ : List IndexEntry) (st : List Doc) (d : Doc) :
    Nat × List Doc :=
  let i := (st.takeWhile (fun e => cmpL σ e d ≤ 0)).length
  (i, st.take i ++ [d] ++ st.drop i)

/-- The `insert` case of `View.prototype._chainHandler` (View.js lines
382-408), parametric in the active-bucket implementation `binsert`.
With `$orderBy` set (`ordered = true`), the source loops over the
normalised payload `arr`, computes `insertIndex :=
activeBucket.insert(arr[index])` and then calls
`_insertHandle(chainPacket.data, insertIndex)` — i.e. it splices the
WHOLE payload, not `arr[index]`, at each computed index.  Without
`$orderBy` the payload is spliced at the end.  Decoupling is the
identity on document values.  Returns the final data array. -/
def chainHandlerInsert {B : Type} (binsert : B → Doc → Nat × B) (b : B)
    (ordered : Bool) (payload : List Doc) (data : List Doc) : List Doc :=
  if ordered then
    (payload.foldl
      (fun (st : List Doc × B) d =>
        let ib := binsert st.2 d
        (insertHandle payload ib.1 st.1, ib.2))
      (data, b)).1
  else
    insertHandle payload data.length data

/-! ## View lifecycle: `from`, `drop`, the back-reference list and the
database registry

A small state model of one View, the Collection it reads from and the
owning Db, carrying exactly the state the lifecycle methods of View.js
touch. -/

/-- The slice of a View's instance state the lifecycle methods use. -/
structure ViewW : Type where
  name : String
  /-- `_from` is set (the view is bound to the source). -/
  hasFrom : Bool
  /-- `_state === 'dropped'`. -/
  dropped : Bool
  /-- `_io` (the ReactorIO) is allocated. -/
  hasIo : Bool
  /-- `_privateData` is allocated. -/
  hasPrivate : Bool
  /-- `_publicData` is allocated (and distinct from `_privateData`). -/
  hasPublic : Bool
  deriving DecidableEq, Repr

/-- The source collection's state: its `_view` back-reference list
(views held by name). -/
structure CollW : Type where
  views : List String
  deriving DecidableEq, Repr

/-- The database's state: the keys of its `_view` name-to-View registry. -/
structure DbW : Type where
  registry : List String
  deriving DecidableEq, Repr

/-- Combined lifecycle state of one view, its source and the db. -/
structure World : Type where
  v : ViewW
  coll : CollW
  db : DbW
  deriving DecidableEq, Repr

/-- `View.prototype.from(source)` (View.js lines 178-327) restricted to
the lifecycle state: sets `_from` (and allocates the ReactorIO).  It
does NOT touch the source's `_view` back-reference list. -/
def viewFrom (w : World) : World :=
  { w with v := { w.v with hasFrom := true, hasIo := true } }

/-- `View.prototype._collectionDropped` (View.js lines 335-340): when
the dropped collection is passed, the view deletes its `_from`
reference; the view itself is not dropped. -/
def collectionDropped (w : World) : World :=
  { w with v := { w.v with hasFrom := false } }

/-- `Db.prototype.viewExists` (View.js lines 1213-1215). -/
def dbViewExists (w : World) (nm : String) : Bool :=
  nm ∈ w.db.registry

/-- The diagnostic `Collection.prototype.view` throws when the name is
taken (View.js line 1138). -/
def viewNameTakenMsg (nm : String) : String :=
  "Cannot create a view using this collection because a view with this name already exists: " ++ nm

/-- `Collection.prototype.view(name, query, options)` (View.js lines
1126-1141): if no view with that name is in the db's `_view` registry,
construct a new View, bind it to this collection via `.db(db).from(this)`
and push it onto the collection's `_view` back-reference list; the db
registry itself is not written.  Otherwise throw a diagnostic naming the
offending name.  The returned world's `v` is the newly created view. -/
def collectionView (w : World) (nm : String) : Except String World :=
  if nm ∈ w.db.registry then
    Except.error (viewNameTakenMsg nm)
  else
    Except.ok
      { v := { name := nm, hasFrom := true, dropped := false,
               hasIo := true, hasPrivate := true, hasPublic := false },
        coll := { views := w.coll.views ++ [nm] },
        db := w.db }

/-- The observable side effects of one `View.prototype.drop` call. -/
structure DropOut : Type where
  /-- The boolean `drop` returns. -/
  ret : Bool
  /-- `_from._removeView(this)` ran (back-reference removed). -/
  removedBackRef : Bool
  /-- `_io.drop()` ran. -/
  droppedIo : Bool
  /-- `_privateData.drop()` ran. -/
  droppedPrivate : Bool
  /-- `_publicData.drop()` ran (public data present and distinct). -/
  droppedPublic : Bool
  /-- `emit('drop', this)` ran. -/
  emittedDrop : Bool
  /-- The arguments the callback was invoked with, if any. -/
  callback : Option (Bool × Bool)
  deriving DecidableEq, Repr

/-- `View.prototype.drop(callback)` (View.js lines 516-563).  On a
non-dropped view: unsubscribe from the source and remove the
back-reference (when bound), set the state to dropped, drop the
ReactorIO / private data / distinct public data (when present), delete
the db registry entry under the view's name, emit `drop`, invoke the
callback with `(false, true)`, delete the instance references and
return `true`.  On a dropped view: return `false` and change nothing. -/
def viewDrop (w : World) (hasCallback : Bool) : World × DropOut :=
  if w.v.dropped then
    (w, { ret := false, removedBackRef := false, droppedIo := false,
          droppedPrivate := false, droppedPublic := false,
          emittedDrop := false, callback := none })
  else
    ({ v := { name := w.v.name, hasFrom := false, dropped := true,
              hasIo := false, hasPrivate := false, hasPublic := false },
       coll := { views := if w.v.hasFrom then w.coll.views.erase w.v.name
                 else w.coll.views },
       db := { registry := w.db.registry.erase w.v.name } },
     { ret := true,
       removedBackRef := w.v.hasFrom,
       droppedIo := w.v.hasIo,
       droppedPrivate := w.v.hasPrivate,
       droppedPublic := w.v.hasPublic,
       emittedDrop := true,
       callback := if hasCallback then some (false, true) else none })

/-! ## Concrete documents and states used in counterexamples and witnesses -/

/-- A document with no `a` field (its `a` value is `undefined`). -/
def docNoA : Doc := [("b", JVal.num 0)]

/-- A document with `a = 5`. -/
def docA5 : Doc := [("a", JVal.num 5)]

/-- `{a: 1}` as a document. -/
def docA1 : Doc := [("a", JVal.num 1)]

/-- `{a: 2}` as a document. -/
def docA2 : Doc := [("a", JVal.num 2)]

/-- `{a: 1, b: 1}`. -/
def docAB11 : Doc := [("a", JVal.num 1), ("b", JVal.num 1)]

/-- `{a: 1, b: 2}`. -/
def docAB12 : Doc := [("a", JVal.num 1), ("b", JVal.num 2)]

/-- `{a: 2, b: 1}`. -/
def docAB21 : Doc := [("a", JVal.num 2), ("b", JVal.num 1)]

/-- A diff whose only entry is one updated document. -/
def diffUpdOnly : Diff := { insert := [], update := [[("_id", JVal.num 1), ("x", JVal.num 2)]], remove := [] }

/-- A diff whose only entry is one removed document, for a collection
whose primary key is `customId`. -/
def diffRemCustom : Diff := { insert := [], update := [], remove := [[("customId", JVal.num 7)]] }

/-- `{_id: 1, n: 1}`. -/
def docN1 : Doc := [("_id", JVal.num 1), ("n", JVal.num 1)]

/-- `{_id: 2, n: 2}`. -/
def docN2 : Doc := [("_id", JVal.num 2), ("n", JVal.num 2)]

/-- A world with one unbound, non-dropped view `v1`, an empty source
back-reference list and an empty db registry. -/
def world0 : World :=
  { v := { name := "v1", hasFrom := false, dropped := false, hasIo := false,
           hasPrivate := true, hasPublic := false },
    coll := { views := [] },
    db := { registry := [] } }

/-- The world `collectionView world0 "v1"` produces. -/
def world1 : World :=
  { v := { name := "v1", hasFrom := true, dropped := false, hasIo := true,
           hasPrivate := true, hasPublic := false },
    coll := { views := ["v1"] },
    db := { registry := [] } }

/-- A bound, registered, non-dropped view world used for drop witnesses. -/
def worldBound : World :=
  { v := { name := "v1", hasFrom := true, dropped := false, hasIo := true,
           hasPrivate := true, hasPublic := true },
    coll := { views := ["v1"] },
    db := { registry := ["v1"] } }

/-! ## C5 definitions: numeric documents and tree well-formedness -/

/-- A document has integer values at every field of the index spec. -/
def NumericOn (sg : List IndexEntry) (d : Doc) : Prop :=
  ∀ e ∈ sg, ∃ n, jGet d e.1 = JVal.num n

/-- Well-formedness of the trees built by the source: the store holds
the node's data and only documents tying with it on this level, the
left / right subtrees hold strictly smaller / larger documents, and the
middle child exists iff index levels remain beyond this one, holding
exactly the store's documents indexed on the remaining levels. -/
inductive WF : List IndexEntry → BTree → Prop
  | nil (spec : List IndexEntry) : WF spec BTree.nil
  | node (spec : List IndexEntry) (d : Doc) (s : List Doc) (l m r : BTree)
      (hds : d ∈ s)
      (hstore : ∀ x ∈ s, compareFunc spec x d = 0)
      (hleft : ∀ x ∈ docsOf l, compareFunc spec x d = -1)
      (hright : ∀ x ∈ docsOf r, compareFunc spec x d = 1)
      (hwl : WF spec l) (hwr : WF spec r)
      (hmnil : m = BTree.nil → spec.tail = [])
      (hmtail : m ≠ BTree.nil → spec.tail ≠ [])
      (hwm : m ≠ BTree.nil → WF spec.tail m)
      (hmperm : m ≠ BTree.nil → List.Perm (docsOf m) s) :
      WF spec (BTree.node d s l m r)

/-! ## Basic comparator lemmas -/

/-- `sortAsc` against an undefined left value is always `0`: both
JavaScript comparisons `undefined > b` and `undefined < b` are false. -/
theorem sortAsc_undef_left (v : JVal) : sortAsc JVal.undef v = 0 := by
  cases v <;> simp [sortAsc, jsLt, toNum]

/-- `sortAsc` against an undefined right value is always `0`. -/
theorem sortAsc_undef_right (v : JVal) : sortAsc v JVal.undef = 0 := by
  cases v <;> simp [sortAsc, jsLt, toNum]

/-- `sortDesc` against an undefined left value is always `0`. -/
theorem sortDesc_undef_left (v : JVal) : sortDesc JVal.undef v = 0 := by
  cases v <;> simp [sortDesc, jsLt, toNum]

/-- `sortDesc` against an undefined right value is always `0`. -/
theorem sortDesc_undef_right (v : JVal) : sortDesc v JVal.undef = 0 := by
  cases v <;> simp [sortDesc, jsLt, toNum]

/-! ## C9 — undefined values in the tree comparator -/

/-- C9 counterexample: the claim says a document whose indexed field is
undefined compares less-than (result -1, ascending) a document with a
defined value; on the code the comparison yields 0, not -1. -/
theorem c9_counterexample :
    compareFunc [("a", 1)] docNoA docA5 = 0 ∧
    compareFunc [("a", 1)] docNoA docA5 ≠ -1 := by
  constructor <;> decide

/-- C9 (amended): a document whose value at the indexed field is
undefined compares as EQUAL (0) to every other document, in both
directions of the comparison and under both ascending and descending
sort direction (and under any other direction value, where the
comparator is constantly 0); it is therefore routed to the middle/store
chain, not ordered before defined values. -/
theorem c9_undef_compares_equal (k : String) (dir : Int)
    (rest : List IndexEntry) (a b : Doc) (h : jGet a k = JVal.undef) :
    compareFunc ((k, dir) :: rest) a b = 0 ∧
    compareFunc ((k, dir) :: rest) b a = 0 := by
  unfold compareFunc
  rcases eq_or_ne dir 1 with h1 | h1
  · simp [h1, h, sortAsc_undef_left, sortAsc_undef_right]
  · rcases eq_or_ne dir (-1) with h2 | h2
    · simp [h1, h2, h, sortDesc_undef_left, sortDesc_undef_right]
    · simp [h1, h2]

/-- Witness for C9: the amended theorem applied at a concrete input. -/
theorem c9_witness :
    jGet docNoA "a" = JVal.undef ∧
    compareFunc [("a", 1)] docNoA docA5 = 0 ∧
    compareFunc [("a", 1)] docA5 docNoA = 0 :=
  ⟨by decide,
   (c9_undef_compares_equal "a" 1 [] docNoA docA5 (by decide)).1,
   (c9_undef_compares_equal "a" 1 [] docNoA docA5 (by decide)).2⟩

/-! ## C10 — falsy query values in `lookup` -/

/-- C10: when the query's value at the node's index field is falsy
(0, empty string, false, null — all with `truthyJ` false), even though
the field is present in the query object, `lookup` takes the
unconstrained branch: it gathers the left subtree, the middle subtree
(or the node's leaf store when no middle exists) and the right subtree,
and never compares the query against the node's key (the result is
independent of the node's data). -/
theorem c10_falsy_query_unconstrained (e : IndexEntry)
    (rest : List IndexEntry) (dd dd' : Doc) (s : List Doc) (l m r : BTree)
    (q : Doc) (hpres : jHas q e.1 = true)
    (hfalsy : truthyJ (jGet q e.1) = false) :
    lookupT (e :: rest) (BTree.node dd s l m r) q =
      lookupT (e :: rest) l q ++
      (match m with
        | BTree.nil => s
        | BTree.node dm sm lm mm rm =>
            lookupT rest (BTree.node dm sm lm mm rm) q) ++
      lookupT (e :: rest) r q ∧
    lookupT (e :: rest) (BTree.node dd s l m r) q =
      lookupT (e :: rest) (BTree.node dd' s l m r) q := by
  constructor
  · rw [lookupT.eq_def]
    simp [hfalsy]
  · conv_lhs => rw [lookupT.eq_def]
    conv_rhs => rw [lookupT.eq_def]
    simp [hfalsy]

/-- Witness for C10: a node queried with `{a: 0}` (field present, value
falsy) yields the gathered left / store / right content. -/
theorem c10_witness :
    jHas ([("a", JVal.num 0)] : Doc) "a" = true ∧
    truthyJ (jGet ([("a", JVal.num 0)] : Doc) "a") = false ∧
    lookupT [("a", 1)]
        (BTree.node docA2 [docA2]
          (BTree.node docA1 [docA1] BTree.nil BTree.nil BTree.nil)
          BTree.nil BTree.nil)
        [("a", JVal.num 0)] =
      lookupT [("a", 1)]
        (BTree.node docA1 [docA1] BTree.nil BTree.nil BTree.nil)
        [("a", JVal.num 0)] ++
      [docA2] ++
      lookupT [("a", 1)] BTree.nil [("a", JVal.num 0)] :=
  ⟨by decide, by decide,
    (c10_falsy_query_unconstrained ("a", 1) [] docA2 docA2 [docA2]
      (BTree.node docA1 [docA1] BTree.nil BTree.nil BTree.nil)
      BTree.nil BTree.nil
      [("a", JVal.num 0)] (by decide) (by decide)).1⟩

/-! ## C3 — batch insert result partition -/

/-- C3: the claim says `failed` only receives malformed documents and
every well-formed document of the batch ends in `inserted`.  On the
code, a single-document insert into a node that already has data falls
through the comparison branches without returning, so it evaluates to
`undefined` (falsy) and every document after the first is pushed to
`failed` even though it has been placed in the tree.  Evaluation at the
failing input: a batch of two well-formed documents into an empty tree
reports the second as failed while the tree contains both. -/
theorem c3_batch_insert_misreports_failed :
    (insertBatch [("a", 1)] BTree.nil [docA1, docA2]).2.1 = [docA1] ∧
    (insertBatch [("a", 1)] BTree.nil [docA1, docA2]).2.2 = [docA2] ∧
    inOrder (insertBatch [("a", 1)] BTree.nil [docA1, docA2]).1 =
      [docA1, docA2] := by
  refine ⟨by decide, by decide, by decide⟩

/-! ## C1 — the update branch of the View's ReactorIO transform -/

/-- C1 counterexample: a diff whose only entries are updates (no
inserts, no removes) is non-empty, yet the transform returns `false`
and emits nothing — the claim requires it to emit an `update` packet
and return `true` whenever the diff contains any insert, update or
remove entry. -/
theorem c1_counterexample :
    diffUpdOnly.update ≠ [] ∧
    updateTransform "_id" diffUpdOnly = (false, []) := by
  constructor <;> decide

/-- C1 (amended): the transform consumes the packet (returns `true`)
iff the diff contains an insert or a remove entry; when the diff has
neither (even if it has update entries) it returns `false` and emits
nothing, letting the packet pass unchanged; and when it consumes the
packet it emits, in order, an `insert` packet carrying `diff.insert`
when non-empty, one `update` packet per `diff.update` entry with query
`{pk: doc[pk]}` and the entry as update, and a single `remove` packet
whose `$or` clauses carry the removed documents' primary-key values
(under the literal key `_id`). -/
theorem c1_update_transform_gated (pk : String) (diff : Diff) :
    ((updateTransform pk diff).1 = true ↔
      (diff.insert ≠ [] ∨ diff.remove ≠ [])) ∧
    (diff.insert = [] ∧ diff.remove = [] →
      updateTransform pk diff = (false, [])) ∧
    (diff.insert ≠ [] ∨ diff.remove ≠ [] →
      (updateTransform pk diff).2 =
        (if diff.insert = [] then [] else [Packet.insert diff.insert]) ++
        diff.update.map (fun d => Packet.update [(pk, jGet d pk)] d) ++
        (if diff.remove = [] then [] else
          [Packet.remove (diff.remove.map (fun d => ("_id", jGet d pk)))])) := by
  unfold updateTransform
  by_cases hi : diff.insert = [] <;> by_cases hr : diff.remove = [] <;>
    simp [hi, hr]

/-- Witness for C1: the amended theorem at a concrete diff with one
inserted document. -/
theorem c1_witness :
    (updateTransform "_id" { insert := [docA1], update := [], remove := [] }).1 = true :=
  (c1_update_transform_gated "_id"
    { insert := [docA1], update := [], remove := [] }).1.mpr
    (Or.inl (by decide))

/-! ## C2 — the remove packet's `$or` clause key -/

/-- C2: the claim says each `$or` clause of the emitted `remove` packet
is keyed by the data collection's primary-key field name.  The code
(View.js line 290) pushes `{_id: diff.remove[i][pk]}` — the key is the
literal string `_id` while the value is read at the primary key.
Evaluation at the failing input (primary key `customId`): the clause is
keyed `_id`, not `customId`. -/
theorem c2_remove_clause_keyed_literal_id :
    updateTransform "customId" diffRemCustom =
      (true, [Packet.remove [("_id", JVal.num 7)]]) ∧
    ("_id" : String) ≠ "customId" := by
  constructor <;> decide

/-! ## C4 — ordered insert splices the whole payload -/

/-- C4: the claim says each individual document of an insert packet is
spliced at the index the active bucket returns.  The code (View.js
line 402) passes `chainPacket.data` — the whole normalised payload —
to `_insertHandle` at every loop iteration, so with a two-document
payload each document ends up twice in the view's data.  Evaluation at
the failing input (ordered view on `{n:1}`, empty data, payload
`[{_id:1,n:1},{_id:2,n:2}]`): the result holds four documents instead
of two.  The unordered branch (append at the end) behaves as claimed. -/
theorem c4_ordered_insert_duplicates_payload :
    chainHandlerInsert (activeBucketInsert [("n", 1)]) [] true
        [docN1, docN2] [] = [docN1, docN1, docN2, docN2] ∧
    chainHandlerInsert (activeBucketInsert [("n", 1)]) [] false
        [docN1, docN2] [docAB11] = [docAB11, docN1, docN2] := by
  constructor <;> decide

/-! ## C6 — back-references between source and view -/

/-- C6 counterexample: binding a view to a source with `from(source)`
sets the view's `_from` but does NOT add the view to the source's
`_view` back-reference list — the claim says the list contains every
view bound via `from`. -/
theorem c6_counterexample :
    (viewFrom world0).v.hasFrom = true ∧
    "v1" ∉ (viewFrom world0).coll.views := by
  constructor <;> decide

/-- C6 (amended): the source's `_view` back-reference list contains the
view when the view was created through the `collection.view` factory
(binding through `from(source)` alone does not add a back-reference);
`drop()` on a bound view removes the view's name from that list; and
when the source is dropped the view clears its `_from` binding without
itself being dropped. -/
theorem c6_backref_lifecycle (w : World) (nm : String) (hasCb : Bool)
    (hbound : w.v.hasFrom = true) (hnodup : w.coll.views.Nodup)
    (hnd : w.v.dropped = false) :
    (∀ w', collectionView w nm = Except.ok w' →
      w'.v.name = nm ∧ nm ∈ w'.coll.views) ∧
    ((viewDrop w hasCb).1.coll.views = w.coll.views.erase w.v.name ∧
      w.v.name ∉ (viewDrop w hasCb).1.coll.views) ∧
    ((collectionDropped w).v.hasFrom = false ∧
      (collectionDropped w).v.dropped = w.v.dropped) := by
  refine ⟨?_, ⟨?_, ?_⟩, by simp [collectionDropped], by simp [collectionDropped]⟩
  · intro w' hw'
    unfold collectionView at hw'
    by_cases hreg : nm ∈ w.db.registry
    · simp [hreg] at hw'
    · simp [hreg] at hw'
      subst hw'
      exact ⟨rfl, by simp⟩
  · simp [viewDrop, hnd, hbound]
  · simp only [viewDrop, hnd, Bool.false_eq_true, if_false, hbound, if_true]
    intro hmem
    exact absurd ((List.Nodup.mem_erase_iff hnodup).mp hmem).1 (by simp)

/-- Witness for C6: the amended theorem at a concrete bound world. -/
theorem c6_witness :
    (∀ w', collectionView worldBound "v2" = Except.ok w' →
      w'.v.name = "v2" ∧ "v2" ∈ w'.coll.views) ∧
    ((viewDrop worldBound true).1.coll.views =
        worldBound.coll.views.erase "v1" ∧
      "v1" ∉ (viewDrop worldBound true).1.coll.views) ∧
    ((collectionDropped worldBound).v.hasFrom = false ∧
      (collectionDropped worldBound).v.dropped = worldBound.v.dropped) :=
  c6_backref_lifecycle worldBound "v2" true (by decide) (by decide) (by decide)

/-! ## C7 — creating a view through a collection -/

/-- C7 counterexample: `collection.view(name, q, o)` succeeds on a
fresh database but does not write the database's `_view` registry, so
`db.viewExists(name)` is still `false` afterwards — the claim says the
view is registered and `viewExists` subsequently returns `true`. -/
theorem c7_counterexample :
    collectionView world0 "v1" = Except.ok world1 ∧
    dbViewExists world1 "v1" = false :=
  ⟨by rfl, by decide⟩

/-- C7 (amended): `collection.view(name, query, options)` constructs a
new View bound to that collection and appends it to the collection's
`_view` back-reference list, and throws a diagnostic identifying the
offending name if a view with that name is already registered on the
database; but it does not itself add the view to the database's
name-to-View registry, so `db.viewExists(name)` is unchanged (and in
particular stays `false` unless the name was registered elsewhere,
e.g. via `db.view(name)`). -/
theorem c7_collection_view_factory (w : World) (nm : String) :
    (nm ∈ w.db.registry →
      collectionView w nm = Except.error (viewNameTakenMsg nm)) ∧
    (nm ∉ w.db.registry →
      ∃ w', collectionView w nm = Except.ok w' ∧
        w'.v.name = nm ∧ w'.v.hasFrom = true ∧ w'.v.dropped = false ∧
        nm ∈ w'.coll.views ∧ w'.db = w.db ∧
        dbViewExists w' nm = dbViewExists w nm) := by
  constructor
  · intro hreg
    simp [collectionView, hreg]
  · intro hreg
    refine ⟨{ v := { name := nm, hasFrom := true, dropped := false,
                     hasIo := true, hasPrivate := true, hasPublic := false },
              coll := { views := w.coll.views ++ [nm] }, db := w.db },
            ?_, rfl, rfl, rfl, by simp, rfl, rfl⟩
    simp [collectionView, hreg]

/-- Witness for C7: the amended theorem at the fresh world. -/
theorem c7_witness :
    ∃ w', collectionView world0 "v1" = Except.ok w' ∧
      w'.v.name = "v1" ∧ w'.v.hasFrom = true ∧ w'.v.dropped = false ∧
      "v1" ∈ w'.coll.views ∧ w'.db = world0.db ∧
      dbViewExists w' "v1" = dbViewExists world0 "v1" :=
  (c7_collection_view_factory world0 "v1").2 (by decide)

/-! ## C8 — idempotence of `View.prototype.drop` -/

/-- C8: on a bound, non-dropped view, the first `drop` call sets the
state to dropped, removes the back-reference from the source,
drops the ReactorIO when present, drops the private data and any
distinct public data, deletes the database registry entry under the
view's name, emits `drop`, invokes the callback with `(false, true)`,
and returns `true`; a second call (from the resulting state, which is
itself dropped) returns `false`, changes nothing, emits nothing and
invokes no callback. -/
theorem c8_drop_idempotent (w : World) (hasCb : Bool)
    (hnd : w.v.dropped = false) (hfrom : w.v.hasFrom = true)
    (hpriv : w.v.hasPrivate = true) :
    (viewDrop w hasCb).2.ret = true ∧
    (viewDrop w hasCb).1.v.dropped = true ∧
    (viewDrop w hasCb).2.removedBackRef = true ∧
    (viewDrop w hasCb).2.droppedIo = w.v.hasIo ∧
    (viewDrop w hasCb).2.droppedPrivate = true ∧
    (viewDrop w hasCb).2.droppedPublic = w.v.hasPublic ∧
    (viewDrop w hasCb).1.coll.views = w.coll.views.erase w.v.name ∧
    (viewDrop w hasCb).1.db.registry = w.db.registry.erase w.v.name ∧
    (viewDrop w hasCb).2.emittedDrop = true ∧
    (viewDrop w hasCb).2.callback =
      (if hasCb then some (false, true) else none) ∧
    (∀ cb2, viewDrop (viewDrop w hasCb).1 cb2 =
      ((viewDrop w hasCb).1,
        { ret := false, removedBackRef := false, droppedIo := false,
          droppedPrivate := false, droppedPublic := false,
          emittedDrop := false, callback := none })) := by
  refine ⟨?_, ?_, ?_, ?_, ?_, ?_, ?_, ?_, ?_, ?_, ?_⟩ <;>
    simp [viewDrop, hnd, hfrom, hpriv]

/-- Witness for C8: dropping a fully populated bound view. -/
theorem c8_witness :
    (viewDrop worldBound true).2.ret = true ∧
    (viewDrop worldBound true).1.v.dropped = true ∧
    (viewDrop worldBound true).2.removedBackRef = true ∧
    (viewDrop worldBound true).2.droppedIo = worldBound.v.hasIo ∧
    (viewDrop worldBound true).2.droppedPrivate = true ∧
    (viewDrop worldBound true).2.droppedPublic = worldBound.v.hasPublic ∧
    (viewDrop worldBound true).1.coll.views =
      worldBound.coll.views.erase "v1" ∧
    (viewDrop worldBound true).1.db.registry =
      worldBound.db.registry.erase "v1" ∧
    (viewDrop worldBound true).2.emittedDrop = true ∧
    (viewDrop worldBound true).2.callback = some (false, true) ∧
    (∀ cb2, viewDrop (viewDrop worldBound true).1 cb2 =
      ((viewDrop worldBound true).1,
        { ret := false, removedBackRef := false, droppedIo := false,
          droppedPrivate := false, droppedPublic := false,
          emittedDrop := false, callback := none })) :=
  c8_drop_idempotent worldBound true (by decide) (by decide) (by decide)

/-! ## C5 — permutation invariance and sortedness of inOrder -/

theorem compareFunc_head (e : IndexEntry) (rest : List IndexEntry) (a b : Doc) :
    compareFunc (e :: rest) a b = compareFunc [e] a b := rfl

theorem compareFunc_cons (e : IndexEntry) (rest : List IndexEntry) (a b : Doc) :
    compareFunc (e :: rest) a b =
      if e.2 = 1 then sortAsc (jGet a e.1) (jGet b e.1)
      else if e.2 = -1 then sortDesc (jGet a e.1) (jGet b e.1)
      else 0 := rfl

theorem compareFunc_num (e : IndexEntry) (a b : Doc) (na nb : Int)
    (ha : jGet a e.1 = JVal.num na) (hb : jGet b e.1 = JVal.num nb) :
    compareFunc [e] a b =
      if e.2 = 1 then (if nb < na then 1 else if na < nb then -1 else 0)
      else if e.2 = -1 then (if na < nb then 1 else if nb < na then -1 else 0)
      else 0 := by
  simp [compareFunc, sortAsc, sortDesc, jsLt, toNum, ha, hb]
  split_ifs <;> omega

theorem cmp1_flip_num (e : IndexEntry) (a b : Doc) (na nb : Int)
    (ha : jGet a e.1 = JVal.num na) (hb : jGet b e.1 = JVal.num nb) :
    compareFunc [e] a b = -compareFunc [e] b a := by
  rw [compareFunc_num e a b na nb ha hb, compareFunc_num e b a nb na hb ha]
  split_ifs <;> omega

theorem cmp1_tie_left (e : IndexEntry) (a b c : Doc) (na nb nc : Int)
    (ha : jGet a e.1 = JVal.num na) (hb : jGet b e.1 = JVal.num nb)
    (hc : jGet c e.1 = JVal.num nc)
    (hab : compareFunc [e] a b = 0) :
    compareFunc [e] a c = compareFunc [e] b c := by
  rw [compareFunc_num e a b na nb ha hb] at hab
  rw [compareFunc_num e a c na nc ha hc, compareFunc_num e b c nb nc hb hc]
  split_ifs at * <;> omega

theorem cmp1_lt_trans (e : IndexEntry) (a b c : Doc) (na nb nc : Int)
    (ha : jGet a e.1 = JVal.num na) (hb : jGet b e.1 = JVal.num nb)
    (hc : jGet c e.1 = JVal.num nc)
    (hab : compareFunc [e] a b = -1) (hbc : compareFunc [e] b c = -1) :
    compareFunc [e] a c = -1 := by
  rw [compareFunc_num e a b na nb ha hb] at hab
  rw [compareFunc_num e b c nb nc hb hc] at hbc
  rw [compareFunc_num e a c na nc ha hc]
  split_ifs at * <;> omega

theorem cmpL_cons (e : IndexEntry) (rest : List IndexEntry) (a b : Doc) :
    cmpL (e :: rest) a b =
      if compareFunc [e] a b = 0 then cmpL rest a b else compareFunc [e] a b := rfl

theorem cmpL_head_tie (e : IndexEntry) (rest : List IndexEntry) (a b : Doc)
    (h : compareFunc [e] a b = 0) :
    cmpL (e :: rest) a b = cmpL rest a b := by
  rw [cmpL_cons, if_pos h]

theorem cmpL_head_lt (e : IndexEntry) (rest : List IndexEntry) (a b : Doc)
    (h : compareFunc [e] a b = -1) :
    cmpL (e :: rest) a b = -1 := by
  rw [cmpL_cons, h]
  norm_num

theorem NumericOn.tail (e : IndexEntry) (rest : List IndexEntry) (d : Doc)
    (h : NumericOn (e :: rest) d) : NumericOn rest d :=
  fun e2 he2 => h e2 (List.mem_cons_of_mem e he2)

theorem NumericOn.head (e : IndexEntry) (rest : List IndexEntry) (d : Doc)
    (h : NumericOn (e :: rest) d) : ∃ n, jGet d e.1 = JVal.num n :=
  h e (List.mem_cons_self e rest)

theorem cmpL_flip (sg : List IndexEntry) (a b : Doc)
    (ha : NumericOn sg a) (hb : NumericOn sg b) :
    cmpL sg a b = -cmpL sg b a := by
  induction sg with
  | nil => simp [cmpL]
  | cons e rest ih =>
    obtain ⟨na, hna⟩ := ha.head e rest
    obtain ⟨nb, hnb⟩ := hb.head e rest
    have hflip := cmp1_flip_num e a b na nb hna hnb
    rw [cmpL_cons, cmpL_cons, hflip]
    by_cases h0 : compareFunc [e] b a = 0
    · simp [h0, ih (ha.tail e rest) (hb.tail e rest)]
    · have hne : ¬(-compareFunc [e] b a = 0) := by omega
      simp [h0, hne]

/-- The comparator is reflexive on every document: both JavaScript
comparisons of a value with itself are false, and `localeCompare` of a
string with itself is 0. -/
theorem sortAsc_refl (v : JVal) : sortAsc v v = 0 := by
  cases v <;> simp [sortAsc, jsLt, toNum, localeCompare]

theorem sortDesc_refl (v : JVal) : sortDesc v v = 0 := by
  cases v <;> simp [sortDesc, jsLt, toNum, localeCompare]

theorem compareFunc_refl (spec : List IndexEntry) (d : Doc) :
    compareFunc spec d d = 0 := by
  cases spec with
  | nil => rfl
  | cons e rest =>
    rw [compareFunc_cons]
    split_ifs <;> simp [sortAsc_refl, sortDesc_refl]

theorem localeCompare_range (a b : String) :
    localeCompare a b = -1 ∨ localeCompare a b = 0 ∨ localeCompare a b = 1 := by
  unfold localeCompare
  split_ifs <;> simp

theorem sortAsc_range (a b : JVal) :
    sortAsc a b = -1 ∨ sortAsc a b = 0 ∨ sortAsc a b = 1 := by
  cases a <;> cases b <;>
    first
      | exact localeCompare_range _ _
      | (unfold sortAsc; split_ifs <;> simp)

theorem sortDesc_range (a b : JVal) :
    sortDesc a b = -1 ∨ sortDesc a b = 0 ∨ sortDesc a b = 1 := by
  cases a <;> cases b <;>
    first
      | exact localeCompare_range _ _
      | (unfold sortDesc; split_ifs <;> simp)

theorem compareFunc_range (spec : List IndexEntry) (a b : Doc) :
    compareFunc spec a b = -1 ∨ compareFunc spec a b = 0 ∨
    compareFunc spec a b = 1 := by
  cases spec with
  | nil => simp [compareFunc]
  | cons e rest =>
    rw [compareFunc_cons]
    split_ifs
    · exact sortAsc_range _ _
    · exact sortDesc_range _ _
    · simp

theorem docsOf_newNode (spec : List IndexEntry) (d : Doc) :
    docsOf (newNode spec d) = [d] := by
  match spec with
  | [] => rfl
  | [e] => rfl
  | e1 :: e2 :: rest => rfl

theorem newNode_ne_nil (spec : List IndexEntry) (d : Doc) :
    newNode spec d ≠ BTree.nil := by
  match spec with
  | [] => simp [newNode]
  | [e] => simp [newNode]
  | e1 :: e2 :: rest => simp [newNode]

theorem insertT_ne_nil (spec : List IndexEntry) (t : BTree) (d : Doc) :
    insertT spec t d ≠ BTree.nil := by
  cases t with
  | nil => exact newNode_ne_nil spec d
  | node dd s l m r =>
    rw [insertT.eq_def]
    dsimp only
    split_ifs
    · simp
    · cases m with
      | nil =>
        match spec with
        | [] => simp
        | [e] => simp
        | e1 :: e2 :: rest => simp
      | node dm sm lm mm rm => simp
    · simp
    · simp

theorem WF_newNode (spec : List IndexEntry) (d : Doc) :
    WF spec (newNode spec d) := by
  induction spec with
  | nil =>
    refine WF.node [] d [d] BTree.nil BTree.nil BTree.nil (by simp)
      ?_ (by simp [docsOf]) (by simp [docsOf]) (WF.nil []) (WF.nil [])
      (fun _ => rfl) (fun h => absurd rfl h) (fun h => absurd rfl h)
      (fun h => absurd rfl h)
    intro x hx
    rw [List.mem_singleton] at hx
    rw [hx]
    exact compareFunc_refl [] d
  | cons e rest ih =>
    cases rest with
    | nil =>
      refine WF.node [e] d [d] BTree.nil BTree.nil BTree.nil (by simp)
        ?_ (by simp [docsOf]) (by simp [docsOf]) (WF.nil [e]) (WF.nil [e])
        (fun _ => rfl) (fun h => absurd rfl h) (fun h => absurd rfl h)
        (fun h => absurd rfl h)
      intro x hx
      rw [List.mem_singleton] at hx
      rw [hx]
      exact compareFunc_refl [e] d
    | cons e2 rest2 =>
      refine WF.node (e :: e2 :: rest2) d [d] BTree.nil (newNode (e2 :: rest2) d)
        BTree.nil (by simp)
        ?_ (by simp [docsOf]) (by simp [docsOf])
        (WF.nil _) (WF.nil _)
        (fun h => absurd h (newNode_ne_nil _ d))
        (fun _ => by simp) (fun _ => ih) (fun _ => by rw [docsOf_newNode])
      intro x hx
      rw [List.mem_singleton] at hx
      rw [hx]
      exact compareFunc_refl _ d

theorem docsOf_insertT (spec : List IndexEntry) (t : BTree) (d : Doc) :
    List.Perm (docsOf (insertT spec t d)) (d :: docsOf t) := by
  induction t generalizing spec with
  | nil =>
    rw [show insertT spec BTree.nil d = newNode spec d from rfl, docsOf_newNode]
    simp [docsOf]
  | node dd s l m r ihl ihm ihr =>
    rw [insertT.eq_def]
    dsimp only
    split_ifs with h1 h2 h3
    · rw [List.perm_iff_count]
      intro x
      have hl := (ihl spec).count_eq x
      simp only [docsOf, List.count_append, List.count_cons] at hl ⊢
      split_ifs at * <;> omega
    · cases m with
      | nil =>
        match spec with
        | [] =>
          simp only [docsOf, List.append_assoc, List.singleton_append]
          exact List.perm_middle
        | [e] =>
          simp only [docsOf, List.append_assoc, List.singleton_append]
          exact List.perm_middle
        | e1 :: e2 :: rest =>
          simp only [docsOf, List.append_assoc, List.singleton_append]
          exact List.perm_middle
      | node dm sm lm mm rm =>
        simp only [docsOf, List.append_assoc, List.singleton_append]
        exact List.perm_middle
    · rw [List.perm_iff_count]
      intro x
      have hr := (ihr spec).count_eq x
      simp only [docsOf, List.count_append, List.count_cons] at hr ⊢
      split_ifs at * <;> omega
    · rcases compareFunc_range spec d dd with h | h | h
      · exact absurd h h1
      · exact absurd h h2
      · exact absurd h h3

theorem WF_insertT (spec : List IndexEntry) (t : BTree) (d : Doc)
    (hwf : WF spec t) : WF spec (insertT spec t d) := by
  induction t generalizing spec with
  | nil => exact WF_newNode spec d
  | node dd s l m r ihl ihm ihr =>
    cases hwf with
    | node _ _ _ _ _ _ hds hstore hleft hright hwl hwr hmnil hmtail hwm hmperm =>
    rw [insertT.eq_def]
    dsimp only
    split_ifs with h1 h2 h3
    · refine WF.node spec dd s (insertT spec l d) m r hds hstore ?_ hright
        (ihl spec hwl) hwr hmnil hmtail hwm hmperm
      intro x hx
      rcases List.mem_cons.mp ((docsOf_insertT spec l d).mem_iff.mp hx) with hxd | hxl
      · rw [hxd]; exact h1
      · exact hleft x hxl
    · cases m with
      | nil =>
        have htail := hmnil rfl
        cases spec with
        | nil =>
          dsimp only
          refine WF.node [] dd (s ++ [d]) l BTree.nil r
            (List.mem_append_left _ hds) ?_ hleft hright hwl hwr
            (fun _ => rfl) (fun h => absurd rfl h) (fun h => absurd rfl h)
            (fun h => absurd rfl h)
          intro x hx
          rcases List.mem_append.mp hx with hxs | hxd
          · exact hstore x hxs
          · rw [List.mem_singleton] at hxd
            rw [hxd]; exact h2
        | cons e1 restSpec =>
          cases restSpec with
          | nil =>
            dsimp only
            refine WF.node [e1] dd (s ++ [d]) l BTree.nil r
              (List.mem_append_left _ hds) ?_ hleft hright hwl hwr
              (fun _ => rfl) (fun h => absurd rfl h) (fun h => absurd rfl h)
              (fun h => absurd rfl h)
            intro x hx
            rcases List.mem_append.mp hx with hxs | hxd
            · exact hstore x hxs
            · rw [List.mem_singleton] at hxd
              rw [hxd]; exact h2
          | cons e2 rest2 => simp at htail
      | node dm sm lm mm rm =>
        have hne : BTree.node dm sm lm mm rm ≠ BTree.nil := by simp
        have htail := hmtail hne
        have hwm2 := hwm hne
        have hperm := hmperm hne
        refine WF.node spec dd (s ++ [d]) l
          (insertT spec.tail (BTree.node dm sm lm mm rm) d) r
          (List.mem_append_left _ hds) ?_ hleft hright hwl hwr
          (fun h => absurd h (insertT_ne_nil _ _ _)) (fun _ => htail)
          (fun _ => ihm spec.tail hwm2) ?_
        · intro x hx
          rcases List.mem_append.mp hx with hxs | hxd
          · exact hstore x hxs
          · rw [List.mem_singleton] at hxd
            rw [hxd]; exact h2
        · intro _
          refine (docsOf_insertT _ _ d).trans ?_
          refine (hperm.cons d).trans ?_
          have hmid : List.Perm (s ++ [d]) (d :: s) := by
            simp
          exact hmid.symm
    · refine WF.node spec dd s l m (insertT spec r d) hds hstore hleft ?_
        hwl (ihr spec hwr) hmnil hmtail hwm hmperm
      intro x hx
      rcases List.mem_cons.mp ((docsOf_insertT spec r d).mem_iff.mp hx) with hxd | hxr
      · rw [hxd]; exact h3
      · exact hright x hxr
    · rcases compareFunc_range spec d dd with h | h | h
      · exact absurd h h1
      · exact absurd h h2
      · exact absurd h h3

theorem inOrder_perm_docsOf (spec : List IndexEntry) (t : BTree)
    (hwf : WF spec t) : List.Perm (inOrder t) (docsOf t) := by
  induction t generalizing spec with
  | nil => simp [inOrder, docsOf]
  | node dd s l m r ihl ihm ihr =>
    cases hwf with
    | node _ _ _ _ _ _ hds hstore hleft hright hwl hwr hmnil hmtail hwm hmperm =>
    cases m with
    | nil =>
      rw [inOrder.eq_def]
      dsimp only
      rw [List.perm_iff_count]
      intro x
      have h1 := (ihl spec hwl).count_eq x
      have h2 := (ihr spec hwr).count_eq x
      simp only [docsOf, List.count_append] at *
      omega
    | node dm sm lm mm rm =>
      have hne : BTree.node dm sm lm mm rm ≠ BTree.nil := by simp
      have hperm := hmperm hne
      have hmid := ihm spec.tail (hwm hne)
      rw [inOrder.eq_def]
      dsimp only
      rw [List.perm_iff_count]
      intro x
      have h1 := (ihl spec hwl).count_eq x
      have h2 := (ihr spec hwr).count_eq x
      have h3 := hmid.count_eq x
      have h4 := hperm.count_eq x
      simp only [docsOf, List.count_append] at *
      omega

theorem inOrder_sorted (spec : List IndexEntry) (t : BTree) (hwf : WF spec t)
    (hnum : ∀ x ∈ docsOf t, NumericOn spec x) :
    (inOrder t).Pairwise (fun a b => cmpL spec a b ≤ 0) := by
  induction t generalizing spec with
  | nil => simp [inOrder]
  | node dd s l m r ihl ihm ihr =>
    cases hwf with
    | node _ _ _ _ _ _ hds hstore hleft hright hwl hwr hmnil hmtail hwm hmperm =>
    have hnums : ∀ x ∈ s, NumericOn spec x := fun x hx =>
      hnum x (by simp [docsOf, hx])
    have hnuml : ∀ x ∈ docsOf l, NumericOn spec x := fun x hx =>
      hnum x (by simp [docsOf, hx])
    have hnumr : ∀ x ∈ docsOf r, NumericOn spec x := fun x hx =>
      hnum x (by simp [docsOf, hx])
    have hnumd : NumericOn spec dd := hnums dd hds
    have hinl := inOrder_perm_docsOf spec l hwl
    have hinr := inOrder_perm_docsOf spec r hwr
    cases spec with
    | nil =>
      have hmn : m = BTree.nil := by
        by_contra hne
        exact (hmtail hne) rfl
      subst hmn
      have hld : docsOf l = [] := by
        cases hl0 : docsOf l with
        | nil => rfl
        | cons a as =>
          have := hleft a (by rw [hl0]; exact List.mem_cons_self a as)
          simp [compareFunc] at this
      have hrd : docsOf r = [] := by
        cases hr0 : docsOf r with
        | nil => rfl
        | cons a as =>
          have := hright a (by rw [hr0]; exact List.mem_cons_self a as)
          simp [compareFunc] at this
      have hinl0 : inOrder l = [] := by
        rw [hld] at hinl
        exact hinl.eq_nil
      have hinr0 : inOrder r = [] := by
        rw [hrd] at hinr
        exact hinr.eq_nil
      rw [inOrder.eq_def]
      dsimp only
      rw [hinl0, hinr0]
      simp only [List.nil_append, List.append_nil]
      exact List.pairwise_of_forall_mem_list (fun a _ b _ => by simp [cmpL])
    | cons e rest =>
      obtain ⟨nd, hnd⟩ := hnumd.head e rest
      have hLmid : ∀ x ∈ inOrder l, ∀ y ∈ s, cmpL (e :: rest) x y ≤ 0 := by
        intro x hx y hy
        have hxl : x ∈ docsOf l := hinl.mem_iff.mp hx
        obtain ⟨nx, hnx⟩ := (hnuml x hxl).head e rest
        obtain ⟨ny, hny⟩ := (hnums y hy).head e rest
        have h1 : compareFunc [e] x dd = -1 := hleft x hxl
        have h2 : compareFunc [e] y dd = 0 := hstore y hy
        have h3 : compareFunc [e] y x = compareFunc [e] dd x :=
          cmp1_tie_left e y dd x ny nd nx hny hnd hnx h2
        have h5 := cmp1_flip_num e x y nx ny hnx hny
        have h7 := cmp1_flip_num e x dd nx nd hnx hnd
        have h4 : compareFunc [e] x y = -1 := by omega
        rw [cmpL_head_lt e rest x y h4]
        norm_num
      have hMidR : ∀ y ∈ s, ∀ z ∈ inOrder r, cmpL (e :: rest) y z ≤ 0 := by
        intro y hy z hz
        have hzr : z ∈ docsOf r := hinr.mem_iff.mp hz
        obtain ⟨ny, hny⟩ := (hnums y hy).head e rest
        obtain ⟨nz, hnz⟩ := (hnumr z hzr).head e rest
        have h1 : compareFunc [e] z dd = 1 := hright z hzr
        have h2 : compareFunc [e] y dd = 0 := hstore y hy
        have h3 : compareFunc [e] y z = compareFunc [e] dd z :=
          cmp1_tie_left e y dd z ny nd nz hny hnd hnz h2
        have h5 := cmp1_flip_num e z dd nz nd hnz hnd
        have h4 : compareFunc [e] y z = -1 := by omega
        rw [cmpL_head_lt e rest y z h4]
        norm_num
      have hLR : ∀ x ∈ inOrder l, ∀ z ∈ inOrder r, cmpL (e :: rest) x z ≤ 0 := by
        intro x hx z hz
        have hxl : x ∈ docsOf l := hinl.mem_iff.mp hx
        have hzr : z ∈ docsOf r := hinr.mem_iff.mp hz
        obtain ⟨nx, hnx⟩ := (hnuml x hxl).head e rest
        obtain ⟨nz, hnz⟩ := (hnumr z hzr).head e rest
        have h1 : compareFunc [e] x dd = -1 := hleft x hxl
        have h2 : compareFunc [e] z dd = 1 := hright z hzr
        have h5 := cmp1_flip_num e z dd nz nd hnz hnd
        have h6 : compareFunc [e] dd z = -1 := by omega
        have h4 := cmp1_lt_trans e x dd z nx nd nz hnx hnd hnz h1 h6
        rw [cmpL_head_lt e rest x z h4]
        norm_num
      have hTie : ∀ a ∈ s, ∀ b ∈ s, compareFunc [e] a b = 0 := by
        intro a ha b hb
        obtain ⟨na, hna⟩ := (hnums a ha).head e rest
        obtain ⟨nb, hnb⟩ := (hnums b hb).head e rest
        have h1 : compareFunc [e] a dd = 0 := hstore a ha
        have h2 : compareFunc [e] b dd = 0 := hstore b hb
        have h3 : compareFunc [e] a b = compareFunc [e] dd b :=
          cmp1_tie_left e a dd b na nd nb hna hnd hnb h1
        have h5 := cmp1_flip_num e b dd nb nd hnb hnd
        omega
      cases m with
      | nil =>
        have hrest : rest = [] := hmnil rfl
        subst hrest
        rw [inOrder.eq_def]
        dsimp only
        rw [List.pairwise_append]
        refine ⟨?_, ihr [e] hwr hnumr, ?_⟩
        · rw [List.pairwise_append]
          refine ⟨ihl [e] hwl hnuml, ?_, ?_⟩
          · refine List.pairwise_of_forall_mem_list (fun a ha b hb => ?_)
            rw [cmpL_head_tie e [] a b (hTie a ha b hb)]
            simp [cmpL]
          · intro a ha b hb
            exact hLmid a ha b hb
        · intro a ha z hz
          rcases List.mem_append.mp ha with hal | ham
          · exact hLR a hal z hz
          · exact hMidR a ham z hz
      | node dm sm lm mm rm =>
        have hne : BTree.node dm sm lm mm rm ≠ BTree.nil := by simp
        have hperm := hmperm hne
        have hwm2 := hwm hne
        have hmidin := inOrder_perm_docsOf rest _ hwm2
        have hmidmem : ∀ y ∈ inOrder (BTree.node dm sm lm mm rm), y ∈ s :=
          fun y hy => hperm.mem_iff.mp (hmidin.mem_iff.mp hy)
        rw [inOrder.eq_def]
        dsimp only
        rw [List.pairwise_append]
        refine ⟨?_, ihr (e :: rest) hwr hnumr, ?_⟩
        · rw [List.pairwise_append]
          refine ⟨ihl (e :: rest) hwl hnuml, ?_, ?_⟩
          · have hsorted := ihm rest hwm2
              (fun x hx => (hnums x (hperm.mem_iff.mp hx)).tail e rest)
            refine hsorted.imp_of_mem ?_
            intro a b ha hb hab
            have has := hmidmem a ha
            have hbs := hmidmem b hb
            rw [cmpL_head_tie e rest a b (hTie a has b hbs)]
            exact hab
          · intro a ha b hb
            exact hLmid a ha b (hmidmem b hb)
        · intro a ha z hz
          rcases List.mem_append.mp ha with hal | ham
          · exact hLR a hal z hz
          · exact hMidR a (hmidmem a ham) z hz

theorem insertBatch_tree (spec : List IndexEntry) (ds : List Doc) :
    ∀ (t : BTree) (ins fail : List Doc),
      (ds.foldl
        (fun acc d =>
          let ok := insertRet acc.1
          (insertT spec acc.1 d,
           if ok then acc.2.1 ++ [d] else acc.2.1,
           if ok then acc.2.2 else acc.2.2 ++ [d]))
        (t, ins, fail)).1 = ds.foldl (fun t2 d => insertT spec t2 d) t := by
  induction ds with
  | nil => intro t ins fail; rfl
  | cons d ds ih =>
    intro t ins fail
    simp only [List.foldl]
    exact ih _ _ _

theorem buildTree_foldl (spec : List IndexEntry) (ds : List Doc) :
    buildTree spec ds = ds.foldl (fun t d => insertT spec t d) BTree.nil :=
  insertBatch_tree spec ds BTree.nil [] []

theorem WF_foldl (spec : List IndexEntry) (ds : List Doc) :
    ∀ t, WF spec t → WF spec (ds.foldl (fun t d => insertT spec t d) t) := by
  induction ds with
  | nil => intro t h; exact h
  | cons d ds ih =>
    intro t h
    exact ih _ (WF_insertT spec t d h)

theorem docsOf_foldl (spec : List IndexEntry) (ds : List Doc) :
    ∀ t, List.Perm (docsOf (ds.foldl (fun t d => insertT spec t d) t))
      (ds ++ docsOf t) := by
  induction ds with
  | nil => intro t; simp
  | cons d ds ih =>
    intro t
    simp only [List.foldl, List.cons_append]
    refine (ih (insertT spec t d)).trans ?_
    have h := docsOf_insertT spec t d
    rw [List.perm_iff_count]
    intro x
    have h1 := h.count_eq x
    simp only [List.count_append, List.count_cons] at *
    omega

/-- Two lists that are permutations of each other, both sorted under a
relation that is antisymmetric on their members, are equal. -/
theorem sorted_perm_unique {α : Type} (r : α → α → Prop) :
    ∀ (l₁ l₂ : List α), List.Perm l₁ l₂ → l₁.Pairwise r → l₂.Pairwise r →
      (∀ a ∈ l₁, ∀ b ∈ l₂, r a b → r b a → a = b) → l₁ = l₂ := by
  intro l₁
  induction l₁ with
  | nil =>
    intro l₂ hp _ _ _
    exact (hp.symm.eq_nil).symm
  | cons a t₁ ih =>
    intro l₂ hp h₁ h₂ hanti
    cases l₂ with
    | nil =>
      have := hp.eq_nil
      simp at this
    | cons b t₂ =>
      by_cases hab : a = b
      · subst hab
        have ht := hp.cons_inv
        have hrec := ih t₂ ht h₁.of_cons h₂.of_cons
          (fun x hx y hy => hanti x (List.mem_cons_of_mem _ hx)
            y (List.mem_cons_of_mem _ hy))
        rw [hrec]
      · have ha2 : a ∈ b :: t₂ := hp.mem_iff.mp (List.mem_cons_self a t₁)
        have hat2 : a ∈ t₂ := by
          rcases List.mem_cons.mp ha2 with h | h
          · exact absurd h hab
          · exact h
        have hb1 : b ∈ a :: t₁ := hp.mem_iff.mpr (List.mem_cons_self b t₂)
        have hbt1 : b ∈ t₁ := by
          rcases List.mem_cons.mp hb1 with h | h
          · exact absurd h.symm hab
          · exact h
        have hrab : r a b := List.rel_of_pairwise_cons h₁ hbt1
        have hrba : r b a := List.rel_of_pairwise_cons h₂ hat2
        exact absurd
          (hanti a (List.mem_cons_self a t₁) b (List.mem_cons_self b t₂) hrab hrba)
          hab

/-- C5 counterexample: two documents that tie on every index level
(equal `a`, the only indexed field) come out of `inOrder` in insertion
order, so the two insertion orders of the same document set yield
different sequences — the claim's permutation invariance fails. -/
theorem c5_counterexample :
    List.Perm [docAB11, docAB12] [docAB12, docAB11] ∧
    inOrder (buildTree [("a", 1)] [docAB11, docAB12]) ≠
      inOrder (buildTree [("a", 1)] [docAB12, docAB11]) := by
  constructor
  · decide
  · decide

/-- C5 (amended): when every document of the set has an integer value
at every indexed field and no two distinct documents of the set tie
under the full compound comparator induced by σ, inserting the
documents in any permutation order yields the same `inOrder` sequence,
and that sequence is sorted under the compound comparator. -/
theorem c5_inorder_sorted_permutation_invariant
    (σ : List IndexEntry) (ds₁ ds₂ : List Doc)
    (hperm : List.Perm ds₁ ds₂)
    (hnum : ∀ d ∈ ds₁, NumericOn σ d)
    (hinj : ∀ a ∈ ds₁, ∀ b ∈ ds₁, cmpL σ a b = 0 → a = b) :
    inOrder (buildTree σ ds₁) = inOrder (buildTree σ ds₂) ∧
    (inOrder (buildTree σ ds₁)).Pairwise (fun a b => cmpL σ a b ≤ 0) := by
  have hW1 : WF σ (buildTree σ ds₁) := by
    rw [buildTree_foldl]
    exact WF_foldl σ ds₁ BTree.nil (WF.nil σ)
  have hW2 : WF σ (buildTree σ ds₂) := by
    rw [buildTree_foldl]
    exact WF_foldl σ ds₂ BTree.nil (WF.nil σ)
  have hD1 : List.Perm (docsOf (buildTree σ ds₁)) ds₁ := by
    rw [buildTree_foldl]
    simpa [docsOf] using docsOf_foldl σ ds₁ BTree.nil
  have hD2 : List.Perm (docsOf (buildTree σ ds₂)) ds₂ := by
    rw [buildTree_foldl]
    simpa [docsOf] using docsOf_foldl σ ds₂ BTree.nil
  have hnum2 : ∀ d ∈ ds₂, NumericOn σ d := fun d hd =>
    hnum d (hperm.mem_iff.mpr hd)
  have hs1 := inOrder_sorted σ _ hW1 (fun x hx => hnum x (hD1.mem_iff.mp hx))
  have hs2 := inOrder_sorted σ _ hW2 (fun x hx => hnum2 x (hD2.mem_iff.mp hx))
  have hio1 : List.Perm (inOrder (buildTree σ ds₁)) ds₁ :=
    (inOrder_perm_docsOf σ _ hW1).trans hD1
  have hio2 : List.Perm (inOrder (buildTree σ ds₂)) ds₂ :=
    (inOrder_perm_docsOf σ _ hW2).trans hD2
  have hpp : List.Perm (inOrder (buildTree σ ds₁)) (inOrder (buildTree σ ds₂)) :=
    hio1.trans (hperm.trans hio2.symm)
  refine ⟨?_, hs1⟩
  refine sorted_perm_unique (fun a b => cmpL σ a b ≤ 0) _ _ hpp hs1 hs2 ?_
  intro a ha b hb hab hba
  have ha1 : a ∈ ds₁ := hio1.mem_iff.mp ha
  have hb1 : b ∈ ds₁ := hperm.mem_iff.mpr (hio2.mem_iff.mp hb)
  have hflip := cmpL_flip σ a b (hnum a ha1) (hnum b hb1)
  have h0 : cmpL σ a b = 0 := by omega
  exact hinj a ha1 b hb1 h0

/-- Witness for C5: the amended theorem at a concrete two-document set
with distinct indexed values, inserted in both orders. -/
theorem c5_witness :
    inOrder (buildTree [("a", 1)] [docA2, docA1]) =
      inOrder (buildTree [("a", 1)] [docA1, docA2]) ∧
    (inOrder (buildTree [("a", 1)] [docA2, docA1])).Pairwise
      (fun a b => cmpL [("a", 1)] a b ≤ 0) :=
  c5_inorder_sorted_permutation_invariant [("a", 1)] [docA2, docA1]
    [docA1, docA2]
    (by decide)
    (by
      intro d hd e he
      rw [List.mem_singleton] at he
      rw [he]
      simp only [List.mem_cons, List.mem_singleton] at hd
      rcases hd with h | h | h
      · rw [h]; exact ⟨2, rfl⟩
      · rw [h]; exact ⟨1, rfl⟩
      · simp at h)
    (by
      intro a ha b hb h0
      simp only [List.mem_cons, List.mem_singleton] at ha hb
      rcases ha with h | h | h <;> rcases hb with h2 | h2 | h2 <;>
        simp_all <;> revert h0 <;> decide)

end Forerunner
